import Mathlib

/-!
Verification of `src/sca25519.py`: fault-injection trace analysis for X25519.

The Python source is shallowly embedded below. 32-byte values (`bytes` in
Python) are modelled as `List Nat` with each entry a byte value; Python's
unbounded integers are `Nat` (all values arising from 32-byte strings are
below `2 ^ 256`, and the embedding notes where that bound matters).
The opaque external primitive `get_public_key_bytes_from_private_bytes`
(the X25519 scalar multiplication, out of the core's scope) is a function
parameter `derive` throughout.  Python dicts are association lists that
preserve insertion order, Python sets of ints are lists with
membership-guarded insertion.
-/

namespace Sca25519

/-- `int.to_bytes(w, 'little')`: the `w` base-256 digits of `n`, least
significant first.  (Python raises for `n ≥ 256 ^ w`; all call sites in the
source stay below the bound, where truncation and raising agree.) -/
def toBytesLE : Nat → Nat → List Nat
  | 0, _ => []
  | w + 1, n => (n % 256) :: toBytesLE w (n / 256)

/-- `int.to_bytes(w, 'big')`: big-endian byte string. -/
def toBytesBE (w n : Nat) : List Nat :=
  (toBytesLE w n).reverse

/-- `int.from_bytes(key, 'little')`. -/
def fromBytesLE : List Nat → Nat
  | [] => 0
  | b :: bs => b + 256 * fromBytesLE bs

/-- `int.from_bytes(key, 'big')`. -/
def fromBytesBE (bs : List Nat) : Nat :=
  fromBytesLE bs.reverse

/-- Lower-case hex digit of a value below 16 (as in CPython's `bytes.hex`). -/
def hexDigit (n : Nat) : Char :=
  if n < 10 then Char.ofNat (48 + n) else Char.ofNat (87 + n)

/-- `bytes.hex()` of one byte: two lower-case hex digits. -/
def byteHex (b : Nat) : String :=
  String.mk [hexDigit (b / 16), hexDigit (b % 16)]

/-- `bytes.hex()`: lower-case hex string of a byte string. -/
def bytesHex (bs : List Nat) : String :=
  String.join (bs.map byteHex)

/-- Value of one hex digit character (`bytes.fromhex` digit). -/
def hexDigitVal (c : Char) : Nat :=
  if 48 ≤ c.toNat ∧ c.toNat ≤ 57 then c.toNat - 48
  else if 97 ≤ c.toNat ∧ c.toNat ≤ 102 then c.toNat - 87
  else 0

/-- `bytes.fromhex`: consecutive pairs of hex digits to bytes (total model;
cache values produced by the source are always well-formed hex). -/
def hexToBytes : List Char → List Nat
  | c1 :: c2 :: rest => (16 * hexDigitVal c1 + hexDigitVal c2) :: hexToBytes rest
  | _ => []

/-- `clamp`'s integer transform (the source works on
`int.from_bytes(key, 'little')`, a value below `2 ^ 256`):
`key_int &= ~(1 << 255)` (on values below `2 ^ 256` this is a mask keeping
bits 0–254), `key_int |= 1 << 254`, `key_int &= ~7` (mask clearing the low
three bits). -/
def clampInt (n : Nat) : Nat :=
  ((n &&& (2 ^ 255 - 1)) ||| (1 <<< 254)) &&& ((2 ^ 256 - 1) ^^^ 7)

/-- `clamp(key)` from the source: decode little-endian, fix the format bits,
re-encode as 32 bytes little-endian. -/
def clamp (key : List Nat) : List Nat :=
  toBytesLE 32 (clampInt (fromBytesLE key))

/-- A well-formed Python `bytes` object of length 32. -/
def ValidBytes32 (bs : List Nat) : Prop :=
  bs.length = 32 ∧ ∀ b ∈ bs, b < 256

instance : DecidablePred ValidBytes32 := fun bs => by
  unfold ValidBytes32; infer_instance

/-! ### `generate_faulted_keys`: the four corruption families -/

/-- First family of `generate_faulted_keys`: for each block size in
`[8, 32, 64, 128]`, the mask `(2 ^ block - 1) << (i * block)` for
`i ∈ range (256 / block)`, encoded big-endian. -/
def blockMasks : List (List Nat) :=
  [8, 32, 64, 128].flatMap fun block =>
    (List.range (256 / block)).map fun i =>
      toBytesBE 32 ((2 ^ block - 1) <<< (i * block))

/-- `start_of_mask = ((1 << 256) - 1) ^ (1 << 256 - bits_from_start) - 1`
(Python precedence: the subtractions bind tighter than `^` and looser than
`<<`). -/
def startOfMask (bits_from_start : Nat) : Nat :=
  ((1 <<< 256) - 1) ^^^ ((1 <<< (256 - bits_from_start)) - 1)

/-- `start_of_mask | end_of_mask` with `end_of_mask = (1 << bits_from_end) - 1`. -/
def psMask (bits_from_start bits_from_end : Nat) : Nat :=
  startOfMask bits_from_start ||| ((1 <<< bits_from_end) - 1)

/-- Second family: the prefix+suffix retention masks, in loop order
(`bits_from_start ∈ range 256`, `bits_from_end ∈ range (256 - bits_from_start)`,
skipping the `bits_from_start + bits_from_end == 0` pair), each appended in
big-endian then little-endian encoding. -/
def prefixSuffixMasks : List (List Nat) :=
  (List.range 256).flatMap fun bits_from_start =>
    (List.range (256 - bits_from_start)).flatMap fun bits_from_end =>
      if bits_from_start + bits_from_end = 0 then []
      else [toBytesBE 32 (psMask bits_from_start bits_from_end),
            toBytesLE 32 (psMask bits_from_start bits_from_end)]

/-- The `fault_masks` list accumulated by the first two loops. -/
def fault_masks : List (List Nat) := blockMasks ++ prefixSuffixMasks

/-- `int.from_bytes(key, endian)` with `endian ∈ ['big', 'little']`. -/
def fromBytesE (big : Bool) (bs : List Nat) : Nat :=
  if big then fromBytesBE bs else fromBytesLE bs

/-- `int.to_bytes(w, endian)`. -/
def toBytesE (big : Bool) (w n : Nat) : List Nat :=
  if big then toBytesBE w n else toBytesLE w n

/-- Third family: the original key shifted by `bits_shifted ∈ [1, 255]`, for
both byte orders, vacated bits filled with 0 or 1 — four variants each, in
source order. -/
def shiftKeys (original_key : List Nat) : List (List Nat) :=
  (List.range' 1 255).flatMap fun bits_shifted =>
    [true, false].flatMap fun big =>
      let n := fromBytesE big original_key
      let shifted_left_fill_0 := (n <<< bits_shifted) &&& ((1 <<< 256) - 1)
      let shifted_right_fill_0 := n >>> bits_shifted
      let shifted_left_fill_1 := shifted_left_fill_0 ||| ((1 <<< bits_shifted) - 1)
      let shifted_right_fill_1 :=
        shifted_right_fill_0 ||| (((1 <<< bits_shifted) - 1) <<< (256 - bits_shifted))
      [toBytesE big 32 shifted_left_fill_0,
       toBytesE big 32 shifted_right_fill_0,
       toBytesE big 32 shifted_left_fill_1,
       toBytesE big 32 shifted_right_fill_1]

/-- Fourth family: every value in `range (1 << 8)` as the whole 256-bit
integer, big- then little-endian. -/
def byteSweepKeys : List (List Nat) :=
  (List.range (1 <<< 8)).flatMap fun i => [toBytesBE 32 i, toBytesLE 32 i]

/-- `itertools.combinations(l, k)` in lexicographic order. -/
def combinations : Nat → List Nat → List (List Nat)
  | 0, _ => [[]]
  | _ + 1, [] => []
  | k + 1, x :: xs => (combinations k xs).map (x :: ·) ++ combinations (k + 1) xs
termination_by _ l => l.length

/-- Fifth family: every subset of up to 7 bits of the low byte of the integer
(`1 << bit`) combined with every subset of up to 7 bits of its high byte
(`1 << (bit + 248)`), accumulated by `|=` in source order, big-endian. -/
def cornerKeys : List (List Nat) :=
  (List.range 8).flatMap fun upper_num_bits =>
    (combinations upper_num_bits (List.range 8)).flatMap fun upper_bits =>
      (List.range 8).flatMap fun lower_num_bits =>
        (combinations lower_num_bits (List.range 8)).flatMap fun lower_bits =>
          [toBytesBE 32
            (lower_bits.foldl (fun k bit => k ||| (1 <<< (bit + 248)))
              (upper_bits.foldl (fun k bit => k ||| (1 <<< bit)) 0))]

/-- `generate_faulted_keys(original_key)`: the full candidate sequence, in
yield order: the masked keys (`bytes(a & b for a, b in zip(original_key,
mask))` for each accumulated mask), then the shift family, the byte-value
sweep, and the corner-byte family. -/
def generate_faulted_keys (original_key : List Nat) : List (List Nat) :=
  (fault_masks.map fun mask =>
    List.zipWith (fun a b => a &&& b) original_key mask) ++
    shiftKeys original_key ++ byteSweepKeys ++ cornerKeys

/-! ### Facts about the prefix+suffix mask family -/

/-- The mask the spec's words describe: the highest `a` bits of a 256-bit
value and the lowest `b` bits, middle zeroed.  (Modelled from the spec for
the refinement statement of claim C2.) -/
def specKeepMask (a b : Nat) : Nat :=
  ((2 ^ a - 1) <<< (256 - a)) ||| (2 ^ b - 1)

/-! ### Dicts, caching, and `generate_faulted_results` -/

/-- Python `dict` lookup (also its `in` test) on an insertion-ordered
association list. -/
def lookupKV {α β : Type} [DecidableEq α] : List (α × β) → α → Option β
  | [], _ => none
  | (k, v) :: rest, key => if k = key then some v else lookupKV rest key

/-- Python `dict[k] = v`: update in place if present, else append. -/
def setKV {α β : Type} [DecidableEq α] : List (α × β) → α → β → List (α × β)
  | [], k, v => [(k, v)]
  | (k', v') :: rest, k, v =>
    if k' = k then (k, v) :: rest else (k', v') :: setKV rest k v

/-- One pass of `generate_faulted_results`: the yielded pairs, the final
cache dict, and the clamped-key hexes passed to the external `derive`
primitive, in call order. -/
structure GenPass where
  yields : List (List Nat × List Nat)
  cache : List (String × String)
  calls : List String
deriving Repr, DecidableEq

/-- The loop of `generate_faulted_results` over the faulted keys: clamp, try
the cache (`clamped_key.hex() in key_result_dict`), on a hit yield
`bytes.fromhex` of the stored value, on a miss call `derive` and store the
result. -/
def genLoop (derive : List Nat → List Nat) :
    List (List Nat) → List (String × String) → GenPass
  | [], dict => { yields := [], cache := dict, calls := [] }
  | faulted_key :: rest, dict =>
    let clamped_key := clamp faulted_key
    match lookupKV dict (bytesHex clamped_key) with
    | some pkhex =>
      let r := genLoop derive rest dict
      { yields := (clamped_key, hexToBytes pkhex.data) :: r.yields,
        cache := r.cache, calls := r.calls }
    | none =>
      let resulting_public_key := derive clamped_key
      let r := genLoop derive rest
        (setKV dict (bytesHex clamped_key) (bytesHex resulting_public_key))
      { yields := (clamped_key, resulting_public_key) :: r.yields,
        cache := r.cache, calls := bytesHex clamped_key :: r.calls }

/-- A run of `generate_faulted_results` to exhaustion; `writes` records the
file writes of the pass: one batch write of the whole updated dict, after
the loop. -/
structure GenRun where
  yields : List (List Nat × List Nat)
  calls : List String
  cache : List (String × String)
  writes : List (List (String × String))
deriving Repr, DecidableEq

/-- `generate_faulted_results(original_key)` against loaded cache state
`cache0` (the parse of `faulted_results.json`, `[]` when the file is
absent). -/
def generate_faulted_results (derive : List Nat → List Nat)
    (cache0 : List (String × String)) (original_key : List Nat) : GenRun :=
  let r := genLoop derive (generate_faulted_keys original_key) cache0
  { yields := r.yields, calls := r.calls, cache := r.cache, writes := [r.cache] }

/-! ### Parsed observations and the key-shortening detector -/

/-- One parsed fault observation (`SimulationResult` in the source). -/
structure SimulationResult where
  address : String
  hit : Nat
  instruction : Nat
  result : String
  output : String
deriving Repr, DecidableEq

/-- The inner dict update shared by the detectors: insert an empty set for a
fresh address, then `add` the hit (Python `set` membership semantics). -/
def addHit : List (String × List Nat) → String → Nat → List (String × List Nat)
  | [], address, hit => [(address, [hit])]
  | (a, hits) :: rest, address, hit =>
    if a = address then
      (a, if hit ∈ hits then hits else hits ++ [hit]) :: rest
    else
      (a, hits) :: addHit rest address hit

/-- The outer `results_sim` update of `check_key_shortening`:
`results_sim[output][address].add(hit)` behind the two not-in guards. -/
def updIdx : List (String × List (String × List Nat)) → String → String → Nat →
    List (String × List (String × List Nat))
  | [], output, address, hit => [(output, addHit [] address hit)]
  | (o, inner) :: rest, output, address, hit =>
    if o = output then (o, addHit inner address hit) :: rest
    else (o, inner) :: updIdx rest output address hit

/-- `results_sim` as built by the first loop of `check_key_shortening`. -/
def buildIndex (obs : List SimulationResult) :
    List (String × List (String × List Nat)) :=
  obs.foldl (fun idx r => updIdx idx r.output r.address r.hit) []

/-- `untouched_key` from `check_key_shortening`. -/
def untouched_key : List Nat :=
  [0x80, 0x65, 0x74, 0xba, 0x61, 0x62, 0xcd, 0x58, 0x49, 0x30, 0x59, 0x47,
   0x36, 0x16, 0x35, 0xb6, 0xe7, 0x7d, 0x7c, 0x7a, 0x83, 0xde, 0x38, 0xc0,
   0x80, 0x74, 0xb8, 0xc9, 0x8f, 0xd4, 0x0a, 0x43]

/-- The second loop of `check_key_shortening`: for every generated
`(faulted_key, result)` pair whose public-key hex is an observed output,
record the output's address/hit map under `faulted_key`, skipping keys
already recorded (`if faulted_key in seen_effective_keys: continue`). -/
def shortLoop (results_sim : List (String × List (String × List Nat))) :
    List (List Nat × List Nat) →
    List (List Nat × List (String × List Nat)) →
    List (List Nat × List (String × List Nat))
  | [], seen => seen
  | (faulted_key, result) :: rest, seen =>
    match lookupKV results_sim (bytesHex result) with
    | none => shortLoop results_sim rest seen
    | some inner =>
      if (lookupKV seen faulted_key).isSome then
        shortLoop results_sim rest seen
      else
        shortLoop results_sim rest (seen ++ [(faulted_key, inner)])

/-- `check_key_shortening`'s `seen_effective_keys` association, in insertion
order (the function then prints it sorted by Hamming distance from
`untouched_key`, which permutes but neither adds nor drops entries). -/
def check_key_shortening_core (derive : List Nat → List Nat)
    (cache0 : List (String × String)) (obs : List SimulationResult) :
    List (List Nat × List (String × List Nat)) :=
  shortLoop (buildIndex obs)
    (generate_faulted_results derive cache0 untouched_key).yields []

/-! ### The trace regex and `parse_output` -/

/-- Python exceptions surfaced by the modelled fragments. -/
inductive PyErr
  | fileNotFound
  | indexError
  | assertionError
deriving Repr, DecidableEq

/-- One element of the fixed trace regex, compiled by hand: a literal, a
lazy `.+?` (DOTALL: any character), a capturing group (a literal group
prefix followed by one-or-more characters of a class, lazy when the flag is
`true`), or a MULTILINE `$`.  `grpRest` is a group whose prefix is already
consumed, carrying what its class has consumed so far — the matcher's
internal state, never part of a source pattern. -/
inductive RElem
  | lit : List Char → RElem
  | dotLazyPlus : RElem
  | grp : List Char → (Char → Bool) → Bool → RElem
  | grpRest : List Char → (Char → Bool) → Bool → List Char → RElem
  | eol : RElem

/-- Backtracking matcher for a regex element sequence anchored at the head
of the input; returns the captured groups in order and the input after the
match.  A lazy quantifier tries the continuation before consuming more, a
greedy one the reverse; both backtrack.  Every recursive call shortens the
element list or the input (a group's two steps count as one element), so
`fuel` at least `2 * (elems.length + s.length) + 1` never runs out and the
match is exact. -/
def matchElems : Nat → List RElem → List Char →
    Option (List (List Char) × List Char)
  | 0, _, _ => none
  | fuel + 1, elems, s =>
    match elems with
    | [] => some ([], s)
    | .lit l :: es =>
      if l.isPrefixOf s then matchElems fuel es (s.drop l.length) else none
    | .dotLazyPlus :: es =>
      match s with
      | [] => none
      | _ :: s' =>
        match matchElems fuel es s' with
        | some r => some r
        | none => matchElems fuel (.dotLazyPlus :: es) s'
    | .grp pre cls lazy :: es =>
      if pre.isPrefixOf s then
        matchElems fuel (.grpRest pre cls lazy [] :: es) (s.drop pre.length)
      else none
    | .grpRest pre cls lazy acc :: es =>
      let tryCont : Option (List (List Char) × List Char) :=
        if acc.isEmpty then none
        else
          match matchElems fuel es s with
          | some (caps, rest) => some ((pre ++ acc) :: caps, rest)
          | none => none
      let tryExt : Option (List (List Char) × List Char) :=
        match s with
        | c :: s' =>
          if cls c then
            matchElems fuel (.grpRest pre cls lazy (acc ++ [c]) :: es) s'
          else none
        | [] => none
      if lazy then
        match tryCont with
        | some r => some r
        | none => tryExt
      else
        match tryExt with
        | some r => some r
        | none => tryCont
    | .eol :: es =>
      if s.isEmpty || s.head? == some '\n' then matchElems fuel es s else none

/-- `[a-f0-9]`. -/
def isHexLower (c : Char) : Bool :=
  (97 ≤ c.toNat && c.toNat ≤ 102) || (48 ≤ c.toNat && c.toNat ≤ 57)

/-- The trace-record pattern of `parse_output`, compiled element by element:
`#####.+?Address: (0x[a-f0-9]+?)\. Hit: (\d+).+?Instruction: (\d+).+?Run
result: (.+?)$.+?Output.+?: ([a-f0-9]+?)$` with MULTILINE and DOTALL. -/
def traceRegex : List RElem :=
  [.lit "#####".data, .dotLazyPlus,
   .lit "Address: ".data, .grp "0x".data isHexLower true,
   .lit ". Hit: ".data, .grp [] Char.isDigit false,
   .dotLazyPlus, .lit "Instruction: ".data, .grp [] Char.isDigit false,
   .dotLazyPlus, .lit "Run result: ".data, .grp [] (fun _ => true) true, .eol,
   .dotLazyPlus, .lit "Output".data, .dotLazyPlus, .lit ": ".data,
   .grp [] isHexLower true, .eol]

/-- `re.findall`: scan left to right, take the leftmost match, continue
after it (every match of this pattern consumes at least one character, so
the fuel below is enough for the whole scan). -/
def findallAux : Nat → List Char → List (List (List Char))
  | 0, _ => []
  | fuel + 1, s =>
    match matchElems (2 * (traceRegex.length + s.length) + 1) traceRegex s with
    | some (caps, rest) => caps :: findallAux fuel rest
    | none =>
      match s with
      | [] => []
      | _ :: s' => findallAux fuel s'

def findall (s : List Char) : List (List (List Char)) :=
  findallAux (s.length + 1) s

/-- Python `int` on a digit string. -/
def natOfDigits (l : List Char) : Nat :=
  l.foldl (fun acc c => 10 * acc + (c.toNat - 48)) 0

/-- Build a `SimulationResult` from the five captured groups of one match
(this pattern always captures exactly five). -/
def capsToSim (caps : List (List Char)) : Option SimulationResult :=
  match caps with
  | [address, hit, instruction, result, output] =>
    some { address := String.mk address, hit := natOfDigits hit,
           instruction := natOfDigits instruction,
           result := String.mk result, output := String.mk output }
  | _ => none

/-- A directory in the model: `none` is a missing directory, `some files`
its (name, contents) listing in enumeration order. -/
abbrev Dir := Option (List (String × String))

/-- `parse_output(output_dir)`: `os.listdir` raises `FileNotFoundError` on a
missing directory; otherwise the contents of the `.txt` files are
concatenated in listing order and every match of the trace pattern yields
one record. -/
def parse_output (output_dir : Dir) : Except PyErr (List SimulationResult) :=
  match output_dir with
  | none => .error .fileNotFound
  | some files =>
    let output := String.join
      ((files.filter (fun f => f.1.endsWith ".txt")).map (fun f => f.2))
    .ok ((findall output.data).filterMap capsToSim)

/-! ### `check_safe_error` -/

/-- `results_sim_ordered[instruction] = result`: Python list assignment,
an `IndexError` when the index is not below the list length. -/
def place (arr : List (Option SimulationResult)) (r : SimulationResult) :
    Except PyErr (List (Option SimulationResult)) :=
  if r.instruction < arr.length then .ok (arr.set r.instruction (some r))
  else .error .indexError

/-- The two placement loops of `check_safe_error`, one observation at a
time. -/
def placeAll : List SimulationResult → List (Option SimulationResult) →
    Except PyErr (List (Option SimulationResult))
  | [], arr => .ok arr
  | r :: rs, arr =>
    match place arr r with
    | .ok arr' => placeAll rs arr'
    | .error e => .error e

/-- The comparison loop of `check_safe_error` over
`zip(results_sim_1_ordered, results_sim_2_ordered)`: skip positions missing
from either run, assert that the (address, hit, instruction) triple matches,
and flag the address/hit when exactly one run produced its correct
result. -/
def safeLoop (correct1 correct2 : String) :
    List (Option SimulationResult × Option SimulationResult) →
    List (String × List Nat) → Except PyErr (List (String × List Nat))
  | [], acc => .ok acc
  | (o1, o2) :: rest, acc =>
    match o1, o2 with
    | some r1, some r2 =>
      if r1.address = r2.address then
        if r1.hit = r2.hit then
          if r1.instruction = r2.instruction then
            safeLoop correct1 correct2 rest
              (if (r1.output == correct1).xor (r2.output == correct2) then
                addHit acc r1.address r1.hit
               else acc)
          else .error .assertionError
        else .error .assertionError
      else .error .assertionError
    | _, _ => safeLoop correct1 correct2 rest acc

/-- The fixed capacity of the two alignment arrays ("any value definitely
larger than the total number of instructions"). -/
def alignCap : Nat := 1000000

/-- `check_safe_error` after parsing: place each observation of either trace
at index `instructionIndex` of a 1,000,000-entry array, then run the aligned
comparison.  The two correct public keys are `derive` of `bytes([0x93] * 32)`
and of `bytes([0x6c] * 32)`. -/
def check_safe_error_core (derive : List Nat → List Nat)
    (rs1 rs2 : List SimulationResult) :
    Except PyErr (List (String × List Nat)) :=
  match placeAll rs1 (List.replicate alignCap none) with
  | .error e => .error e
  | .ok a1 =>
    match placeAll rs2 (List.replicate alignCap none) with
    | .error e => .error e
    | .ok a2 =>
      let correct_result_1 := bytesHex (derive (List.replicate 32 0x93))
      let correct_result_2 := bytesHex (derive (List.replicate 32 0x6c))
      safeLoop correct_result_1 correct_result_2 (a1.zip a2) []

/-- `check_safe_error(output_dir_1, output_dir_2)` end to end. -/
def check_safe_error (derive : List Nat → List Nat) (dir1 dir2 : Dir) :
    Except PyErr (List (String × List Nat)) :=
  match parse_output dir1 with
  | .error e => .error e
  | .ok rs1 =>
    match parse_output dir2 with
    | .error e => .error e
    | .ok rs2 => check_safe_error_core derive rs1 rs2

/-- The aligned observation pairs of two traces: the positions where both
alignment arrays hold an observation. -/
def alignedPairs (rs1 rs2 : List SimulationResult) :
    List (SimulationResult × SimulationResult) :=
  match placeAll rs1 (List.replicate alignCap none),
        placeAll rs2 (List.replicate alignCap none) with
  | .ok a1, .ok a2 =>
    (a1.zip a2).filterMap fun pr =>
      match pr with
      | (some r1, some r2) => some (r1, r2)
      | _ => none
  | _, _ => []

/-- `(address, hit)` appears in a report dict. -/
def flaggedIn (flags : List (String × List Nat)) (address : String)
    (hit : Nat) : Prop :=
  ∃ hits, lookupKV flags address = some hits ∧ hit ∈ hits

/-- An aligned array position holds observations for both runs, carrying
address `a` and hit `h`, and exactly one of the two runs produced its
correct public key (the flagging condition of `check_safe_error`). -/
def XorHit (correct1 correct2 : String) (a : String) (h : Nat)
    (p : Option SimulationResult × Option SimulationResult) : Prop :=
  ∃ r1 r2, p = (some r1, some r2) ∧ r1.address = a ∧ r1.hit = h ∧
    ((r1.output == correct1).xor (r2.output == correct2)) = true

/-- An aligned array position holds observations for both runs that differ
in address, hit count, or instruction index (the condition under which the
structural assertions of `check_safe_error` fire). -/
def TripleMismatch (p : Option SimulationResult × Option SimulationResult) :
    Prop :=
  ∃ r1 r2, p = (some r1, some r2) ∧
    (r1.address ≠ r2.address ∨ r1.hit ≠ r2.hit ∨
      r1.instruction ≠ r2.instruction)

/-! ## Theorems -/

/-! ### Arithmetic facts about the byte codecs and `clamp` -/

theorem fromBytesLE_toBytesLE (w n : Nat) :
    fromBytesLE (toBytesLE w n) = n % 256 ^ w := by
  induction w generalizing n with
  | zero => simp [toBytesLE, fromBytesLE, Nat.mod_one]
  | succ w ih =>
    simp only [toBytesLE, fromBytesLE, ih]
    rw [pow_succ', Nat.mod_mul]

theorem clampInt_lt (n : Nat) : clampInt n < 2 ^ 256 := by
  have h1 : clampInt n ≤ (2 ^ 256 - 1) ^^^ 7 := Nat.and_le_right
  have h2 : ((2 ^ 256 - 1) ^^^ 7 : Nat) = 2 ^ 256 - 8 := by decide
  omega

theorem testBit_clampInt (n : Nat) (i : Nat) :
    (clampInt n).testBit i =
      ((n.testBit i && decide (i < 255) || decide (254 = i)) &&
        ((decide (i < 256)).xor (decide (i < 3)))) := by
  have h254 : ((1 : Nat) <<< 254) = 2 ^ 254 := by decide
  have h7 : (7 : Nat) = 2 ^ 3 - 1 := by decide
  simp only [clampInt, h254, h7, Nat.testBit_and, Nat.testBit_or,
    Nat.testBit_xor, Nat.testBit_two_pow_sub_one, Nat.testBit_two_pow]

theorem clampInt_idem (n : Nat) : clampInt (clampInt n) = clampInt n := by
  apply Nat.eq_of_testBit_eq
  intro i
  rw [testBit_clampInt, testBit_clampInt]
  generalize n.testBit i = X
  generalize decide (i < 255) = A
  generalize decide (254 = i) = B
  generalize decide (i < 256) = C
  generalize decide (i < 3) = D
  revert X A B C D
  decide

theorem fromBytesLE_clamp (key : List Nat) :
    fromBytesLE (clamp key) = clampInt (fromBytesLE key) := by
  have h : (256 : Nat) ^ 32 = 2 ^ 256 := by decide
  rw [clamp, fromBytesLE_toBytesLE, h,
    Nat.mod_eq_of_lt (clampInt_lt (fromBytesLE key))]

/-- `clamp` is idempotent on arbitrary byte lists (the source applies it only
to 32-byte strings, but the transform itself is a projection). -/
theorem clamp_clamp (key : List Nat) : clamp (clamp key) = clamp key := by
  rw [clamp, fromBytesLE_clamp, clampInt_idem]
  rfl

theorem testBit_clampInt_254 (n : Nat) : (clampInt n).testBit 254 = true := by
  rw [testBit_clampInt]; simp

theorem clampInt_ne_zero (n : Nat) : clampInt n ≠ 0 := by
  intro h
  have := testBit_clampInt_254 n
  rw [h] at this
  simp [Nat.zero_testBit] at this


theorem testBit_psMask (a b i : Nat) :
    (psMask a b).testBit i =
      (decide (256 - a ≤ i ∧ i < 256) || decide (i < b)) := by
  simp only [psMask, startOfMask, Nat.one_shiftLeft, Nat.testBit_or,
    Nat.testBit_xor, Nat.testBit_two_pow_sub_one]
  by_cases hi : i < 256 <;> by_cases hia : i < 256 - a <;>
    by_cases hib : i < b <;>
    simp [hi, hia, hib, Nat.not_lt.mp] <;> omega

theorem testBit_specKeepMask (a b i : Nat) (ha : a ≤ 256) :
    (specKeepMask a b).testBit i =
      (decide (256 - a ≤ i ∧ i < 256) || decide (i < b)) := by
  simp only [specKeepMask, Nat.testBit_or, Nat.testBit_shiftLeft,
    Nat.testBit_two_pow_sub_one]
  by_cases h1 : 256 - a ≤ i <;> by_cases h2 : i - (256 - a) < a <;>
    by_cases hib : i < b <;>
    simp [h1, h2, hib] <;> omega

/-- The source's mask formula computes exactly the spec-described mask. -/
theorem psMask_eq_specKeepMask (a b : Nat) (ha : a ≤ 256) :
    psMask a b = specKeepMask a b := by
  apply Nat.eq_of_testBit_eq
  intro i
  rw [testBit_psMask, testBit_specKeepMask a b i ha]

theorem psMask_lt (a b : Nat) (hb : b ≤ 256) : psMask a b < 2 ^ 256 := by
  have h3 : ((1 : Nat) <<< 256) = 2 ^ 256 := by decide
  have h1 : ((1 <<< 256) - 1 : Nat) < 2 ^ 256 := by decide
  apply Nat.or_lt_two_pow
  · apply Nat.xor_lt_two_pow h1
    have h2 : (1 <<< (256 - a) : Nat) ≤ 1 <<< 256 := by
      simp only [Nat.one_shiftLeft]
      exact Nat.pow_le_pow_right (by omega) (by omega)
    have h5 : (0 : Nat) < 1 <<< (256 - a) := by
      simp only [Nat.one_shiftLeft]; exact Nat.two_pow_pos _
    omega
  · have h4 : (1 <<< b : Nat) ≤ 1 <<< 256 := by
      simp only [Nat.one_shiftLeft]
      exact Nat.pow_le_pow_right (by omega) hb
    have h5 : (0 : Nat) < 1 <<< b := by
      simp only [Nat.one_shiftLeft]; exact Nat.two_pow_pos _
    omega

/-! ### No mask of the first two families is the all-ones mask -/

theorem toBytesLE_eq_replicate255 {v : Nat} (hv : v < 2 ^ 256)
    (h : toBytesLE 32 v = List.replicate 32 255) : v = 2 ^ 256 - 1 := by
  have h1 := fromBytesLE_toBytesLE 32 v
  rw [h] at h1
  have h2 : fromBytesLE (List.replicate 32 255) = 2 ^ 256 - 1 := by decide
  have h3 : (256 : Nat) ^ 32 = 2 ^ 256 := by decide
  rw [h2, h3, Nat.mod_eq_of_lt hv] at h1
  omega

theorem toBytesBE_eq_replicate255 {v : Nat} (hv : v < 2 ^ 256)
    (h : toBytesBE 32 v = List.replicate 32 255) : v = 2 ^ 256 - 1 := by
  apply toBytesLE_eq_replicate255 hv
  have h2 := congrArg List.reverse h
  rwa [toBytesBE, List.reverse_reverse, List.reverse_replicate] at h2

theorem blockMasks_ne_allones : ∀ m ∈ blockMasks, m ≠ List.replicate 32 255 := by
  intro m hm heq
  simp only [blockMasks, List.mem_flatMap, List.mem_map, List.mem_range] at hm
  obtain ⟨block, hblock, i, hi, rfl⟩ := hm
  have hb4 : block = 8 ∨ block = 32 ∨ block = 64 ∨ block = 128 := by
    simpa using hblock
  have hib : block + i * block ≤ 256 := by
    rcases hb4 with rfl | rfl | rfl | rfl <;> norm_num at hi <;> omega
  have hval : ((2 ^ block - 1) <<< (i * block) : Nat)
      = (2 ^ block - 1) * 2 ^ (i * block) := Nat.shiftLeft_eq _ _
  have hpos : (0 : Nat) < 2 ^ (i * block) := Nat.two_pow_pos _
  have hlt : ((2 ^ block - 1) <<< (i * block) : Nat) < 2 ^ 256 := by
    rw [hval]
    calc (2 ^ block - 1) * 2 ^ (i * block)
        < 2 ^ block * 2 ^ (i * block) := by
          have hp : (0 : Nat) < 2 ^ block := Nat.two_pow_pos _
          exact mul_lt_mul_of_pos_right (by omega) hpos
      _ = 2 ^ (block + i * block) := by rw [pow_add]
      _ ≤ 2 ^ 256 := Nat.pow_le_pow_right (by omega) hib
  have hv := toBytesBE_eq_replicate255 hlt heq
  rw [hval] at hv
  rcases Nat.eq_zero_or_pos i with rfl | hipos
  · rw [Nat.zero_mul, pow_zero, Nat.mul_one] at hv
    rcases hb4 with rfl | rfl | rfl | rfl <;> exact absurd hv (by decide)
  · have hdvd : (2 : Nat) ∣ (2 ^ block - 1) * 2 ^ (i * block) :=
      Dvd.dvd.mul_left
        (dvd_pow_self 2
          (by rcases hb4 with rfl | rfl | rfl | rfl <;> omega)) _
    rw [hv] at hdvd
    exact absurd hdvd (by decide)

theorem prefixSuffixMasks_ne_allones :
    ∀ m ∈ prefixSuffixMasks, m ≠ List.replicate 32 255 := by
  intro m hm heq
  simp only [prefixSuffixMasks, List.mem_flatMap, List.mem_range] at hm
  obtain ⟨a, ha, b, hb, hm⟩ := hm
  by_cases h0 : a + b = 0
  · simp [h0] at hm
  · rw [if_neg h0] at hm
    simp only [List.mem_cons, List.not_mem_nil, or_false] at hm
    have hblt : psMask a b < 2 ^ 256 := psMask_lt a b (by omega)
    have hv : psMask a b = 2 ^ 256 - 1 := by
      rcases hm with rfl | rfl
      · exact toBytesBE_eq_replicate255 hblt heq
      · exact toBytesLE_eq_replicate255 hblt heq
    have h1 : (psMask a b).testBit b = ((2 ^ 256 - 1 : Nat)).testBit b := by
      rw [hv]
    rw [testBit_psMask, Nat.testBit_two_pow_sub_one] at h1
    have hab : ¬ (256 - a ≤ b) := by omega
    have hb256 : b < 256 := by omega
    simp [hab, hb256] at h1

/-! ### Cache behavior of `generate_faulted_results` -/

theorem lookupKV_singleton {α β : Type} [DecidableEq α] (k : α) (v : β) :
    lookupKV [(k, v)] k = some v := by
  simp [lookupKV]

theorem lookupKV_setKV_ne {α β : Type} [DecidableEq α]
    (d : List (α × β)) (k k' : α) (v : β) (h : k' ≠ k) :
    lookupKV (setKV d k' v) k = lookupKV d k := by
  induction d with
  | nil => simp [setKV, lookupKV, h]
  | cons hd tl ih =>
    obtain ⟨k0, v0⟩ := hd
    by_cases h0 : k0 = k'
    · subst h0
      simp [setKV, lookupKV, h]
    · simp only [setKV, if_neg h0, lookupKV]
      by_cases h1 : k0 = k
      · simp [h1]
      · simp [h1, ih]

/-- Entries of the loaded cache survive the pass unchanged and their keys
are never passed to `derive`. -/
theorem genLoop_cached (derive : List Nat → List Nat) (keys : List (List Nat))
    (dict : List (String × String)) (k v : String)
    (hk : lookupKV dict k = some v) :
    k ∉ (genLoop derive keys dict).calls ∧
      lookupKV (genLoop derive keys dict).cache k = some v := by
  induction keys generalizing dict with
  | nil => simpa [genLoop] using hk
  | cons fk rest ih =>
    simp only [genLoop]
    cases hl : lookupKV dict (bytesHex (clamp fk)) with
    | some pkhex => simpa using ih dict hk
    | none =>
      have hne : bytesHex (clamp fk) ≠ k := by
        intro he
        rw [he, hk] at hl
        exact Option.noConfusion hl
      have hk' : lookupKV
          (setKV dict (bytesHex (clamp fk)) (bytesHex (derive (clamp fk)))) k
          = some v := by
        rw [lookupKV_setKV_ne _ _ _ _ hne]
        exact hk
      have h2 := ih _ hk'
      refine ⟨?_, h2.2⟩
      intro hmem
      rcases List.mem_cons.mp hmem with he | hmem
      · exact hne he.symm
      · exact h2.1 hmem

/-- Every occurrence of a faulted key whose clamped hex is in the running
cache yields the cached value. -/
theorem genLoop_yield_cached (derive : List Nat → List Nat)
    (keys : List (List Nat)) (dict : List (String × String))
    (fk : List Nat) (v : String) (hmem : fk ∈ keys)
    (hk : lookupKV dict (bytesHex (clamp fk)) = some v) :
    (clamp fk, hexToBytes v.data) ∈ (genLoop derive keys dict).yields := by
  induction keys generalizing dict with
  | nil => cases hmem
  | cons fk0 rest ih =>
    rcases List.mem_cons.mp hmem with rfl | hmem
    · simp only [genLoop, hk]
      exact List.mem_cons_self _ _
    · simp only [genLoop]
      cases hl : lookupKV dict (bytesHex (clamp fk0)) with
      | some pkhex => exact List.mem_cons_of_mem _ (ih dict hmem hk)
      | none =>
        refine List.mem_cons_of_mem _ (ih _ hmem ?_)
        have hne : bytesHex (clamp fk0) ≠ bytesHex (clamp fk) := by
          intro he
          rw [he, hk] at hl
          exact Option.noConfusion hl
        rw [lookupKV_setKV_ne _ _ _ _ hne]
        exact hk

/-- Every yielded pair's first component is the clamp of some generated
faulted key. -/
theorem genLoop_yields_clamped (derive : List Nat → List Nat)
    (keys : List (List Nat)) (dict : List (String × String)) :
    ∀ p ∈ (genLoop derive keys dict).yields, ∃ fk ∈ keys, p.1 = clamp fk := by
  induction keys generalizing dict with
  | nil => simp [genLoop]
  | cons fk0 rest ih =>
    intro p hp
    simp only [genLoop] at hp
    cases hl : lookupKV dict (bytesHex (clamp fk0)) with
    | some pkhex =>
      rw [hl] at hp
      simp only at hp
      rcases List.mem_cons.mp hp with rfl | hp
      · exact ⟨fk0, List.mem_cons_self _ _, rfl⟩
      · obtain ⟨fk, hfk, he⟩ := ih dict p hp
        exact ⟨fk, List.mem_cons_of_mem _ hfk, he⟩
    | none =>
      rw [hl] at hp
      simp only at hp
      rcases List.mem_cons.mp hp with rfl | hp
      · exact ⟨fk0, List.mem_cons_self _ _, rfl⟩
      · obtain ⟨fk, hfk, he⟩ := ih _ p hp
        exact ⟨fk, List.mem_cons_of_mem _ hfk, he⟩

/-! ### The key-shortening association -/

theorem lookupKV_isSome_iff {α β : Type} [DecidableEq α]
    (l : List (α × β)) (k : α) :
    (lookupKV l k).isSome = true ↔ k ∈ l.map Prod.fst := by
  induction l with
  | nil => simp [lookupKV]
  | cons hd tl ih =>
    obtain ⟨k0, v0⟩ := hd
    by_cases h : k0 = k
    · subst h
      simp [lookupKV]
    · simp [lookupKV, h, ih, Ne.symm h]

/-- Once recorded, a faulted key stays recorded. -/
theorem shortLoop_mono (idx : List (String × List (String × List Nat)))
    (prs : List (List Nat × List Nat))
    (seen : List (List Nat × List (String × List Nat))) (k : List Nat)
    (hk : k ∈ seen.map Prod.fst) :
    k ∈ (shortLoop idx prs seen).map Prod.fst := by
  induction prs generalizing seen with
  | nil => simpa [shortLoop] using hk
  | cons p rest ih =>
    obtain ⟨fk0, pk0⟩ := p
    simp only [shortLoop]
    cases lookupKV idx (bytesHex pk0) with
    | none => exact ih seen hk
    | some inner =>
      by_cases hs : (lookupKV seen fk0).isSome
      · simp only [hs, if_true]
        exact ih seen hk
      · simp only [hs, if_false, Bool.false_eq_true]
        refine ih _ ?_
        rw [List.map_append]
        exact List.mem_append_left _ hk

/-- Every faulted key paired with an observed public key is recorded. -/
theorem shortLoop_mem (idx : List (String × List (String × List Nat)))
    (prs : List (List Nat × List Nat))
    (seen : List (List Nat × List (String × List Nat))) (fk pk : List Nat)
    (hp : (fk, pk) ∈ prs)
    (hobs : (lookupKV idx (bytesHex pk)).isSome = true) :
    fk ∈ (shortLoop idx prs seen).map Prod.fst := by
  induction prs generalizing seen with
  | nil => cases hp
  | cons p rest ih =>
    obtain ⟨fk0, pk0⟩ := p
    rcases List.mem_cons.mp hp with he | hp
    · injection he with h1 h2
      subst h1
      subst h2
      simp only [shortLoop]
      cases hl : lookupKV idx (bytesHex pk) with
      | none =>
        rw [hl] at hobs
        simp at hobs
      | some inner =>
        by_cases hs : (lookupKV seen fk).isSome
        · simp only [hs, if_true]
          exact shortLoop_mono _ _ _ _ ((lookupKV_isSome_iff _ _).mp hs)
        · simp only [hs, if_false, Bool.false_eq_true]
          refine shortLoop_mono _ _ _ _ ?_
          rw [List.map_append]
          exact List.mem_append_right _ (by simp)
    · simp only [shortLoop]
      cases lookupKV idx (bytesHex pk0) with
      | none => exact ih seen hp
      | some inner =>
        by_cases hs : (lookupKV seen fk0).isSome
        · simp only [hs, if_true]
          exact ih seen hp
        · simp only [hs, if_false, Bool.false_eq_true]
          exact ih _ hp

/-- The recorded keys are pairwise distinct: each faulted key is recorded at
most once. -/
theorem shortLoop_nodup (idx : List (String × List (String × List Nat)))
    (prs : List (List Nat × List Nat))
    (seen : List (List Nat × List (String × List Nat)))
    (h : (seen.map Prod.fst).Nodup) :
    ((shortLoop idx prs seen).map Prod.fst).Nodup := by
  induction prs generalizing seen with
  | nil => simpa [shortLoop] using h
  | cons p rest ih =>
    obtain ⟨fk0, pk0⟩ := p
    simp only [shortLoop]
    cases lookupKV idx (bytesHex pk0) with
    | none => exact ih seen h
    | some inner =>
      by_cases hs : (lookupKV seen fk0).isSome
      · simp only [hs, if_true]
        exact ih seen h
      · simp only [hs, if_false, Bool.false_eq_true]
        refine ih _ ?_
        rw [List.map_append]
        rw [List.nodup_append]
        refine ⟨h, by simp, ?_⟩
        intro a ha hb
        simp only [List.map_cons, List.map_nil, List.mem_singleton] at hb
        subst hb
        rw [← lookupKV_isSome_iff] at ha
        exact hs ha

/-! ### Safe-error detector lemmas -/

theorem mem_insertHit (hits : List Nat) (h0 h : Nat) :
    h ∈ (if h0 ∈ hits then hits else hits ++ [h0]) ↔ h ∈ hits ∨ h = h0 := by
  by_cases hmem : h0 ∈ hits
  · rw [if_pos hmem]
    constructor
    · exact Or.inl
    · rintro (hh | rfl)
      · exact hh
      · exact hmem
  · rw [if_neg hmem]
    simp

theorem addHit_flaggedIn (flags : List (String × List Nat)) (a0 : String)
    (h0 : Nat) (a : String) (h : Nat) :
    flaggedIn (addHit flags a0 h0) a h ↔
      flaggedIn flags a h ∨ (a = a0 ∧ h = h0) := by
  induction flags with
  | nil =>
    simp only [addHit, flaggedIn, lookupKV]
    by_cases ha : a0 = a
    · subst ha
      simp
    · rw [if_neg ha]
      constructor
      · rintro ⟨hs, hnone, _⟩
        exact Option.noConfusion hnone
      · rintro (⟨hs, hnone, _⟩ | ⟨rfl, _⟩)
        · exact Option.noConfusion hnone
        · exact absurd rfl ha
  | cons hd tl ih =>
    obtain ⟨k, hits⟩ := hd
    simp only [addHit]
    by_cases hk : k = a0
    · subst hk
      rw [if_pos rfl]
      simp only [flaggedIn, lookupKV]
      by_cases ha : k = a
      · subst ha
        simp [mem_insertHit]
      · simp only [if_neg ha]
        constructor
        · exact fun hx => Or.inl hx
        · rintro (hx | ⟨rfl, _⟩)
          · exact hx
          · exact absurd rfl ha
    · rw [if_neg hk]
      simp only [flaggedIn, lookupKV]
      by_cases ha : k = a
      · subst ha
        simp only [if_pos rfl]
        constructor
        · exact fun hx => Or.inl hx
        · rintro (hx | ⟨rfl, _⟩)
          · exact hx
          · exact absurd rfl hk
      · simp only [if_neg ha]
        exact ih

theorem safeLoop_ok_flag_iff (c1 c2 : String)
    (prs : List (Option SimulationResult × Option SimulationResult)) :
    ∀ acc flags : List (String × List Nat), ∀ (a : String) (h : Nat),
    safeLoop c1 c2 prs acc = .ok flags →
    (flaggedIn flags a h ↔
      flaggedIn acc a h ∨ ∃ p ∈ prs, XorHit c1 c2 a h p) := by
  induction prs with
  | nil =>
    intro acc flags a h hok
    simp only [safeLoop, Except.ok.injEq] at hok
    subst hok
    simp
  | cons p rest ih =>
    intro acc flags a h hok
    obtain ⟨o1, o2⟩ := p
    rcases o1 with _ | r1 <;> rcases o2 with _ | r2
    · simp only [safeLoop] at hok
      rw [ih _ _ a h hok, List.exists_mem_cons_iff]
      simp [XorHit]
    · simp only [safeLoop] at hok
      rw [ih _ _ a h hok, List.exists_mem_cons_iff]
      simp [XorHit]
    · simp only [safeLoop] at hok
      rw [ih _ _ a h hok, List.exists_mem_cons_iff]
      simp [XorHit]
    · simp only [safeLoop] at hok
      by_cases hA : r1.address = r2.address
      · rw [if_pos hA] at hok
        by_cases hH : r1.hit = r2.hit
        · rw [if_pos hH] at hok
          by_cases hI : r1.instruction = r2.instruction
          · rw [if_pos hI] at hok
            rw [ih _ _ a h hok, List.exists_mem_cons_iff]
            by_cases hX : ((r1.output == c1).xor (r2.output == c2)) = true
            · rw [if_pos hX, addHit_flaggedIn]
              constructor
              · rintro ((hacc | ⟨rfl, rfl⟩) | hrest)
                · exact Or.inl hacc
                · exact Or.inr (Or.inl ⟨r1, r2, rfl, rfl, rfl, hX⟩)
                · exact Or.inr (Or.inr hrest)
              · rintro (hacc | ⟨s1, s2, he, rfl, rfl, _⟩ | hrest)
                · exact Or.inl (Or.inl hacc)
                · injection he with he1 he2
                  injection he1 with he1
                  subst he1
                  exact Or.inl (Or.inr ⟨rfl, rfl⟩)
                · exact Or.inr hrest
            · rw [if_neg hX]
              constructor
              · rintro (hacc | hrest)
                · exact Or.inl hacc
                · exact Or.inr (Or.inr hrest)
              · rintro (hacc | ⟨s1, s2, he, ha', hh', hx'⟩ | hrest)
                · exact Or.inl hacc
                · injection he with he1 he2
                  injection he1 with he1
                  injection he2 with he2
                  subst he1
                  subst he2
                  exact absurd hx' hX
                · exact Or.inr hrest
          · rw [if_neg hI] at hok
            exact absurd hok (by simp)
        · rw [if_neg hH] at hok
          exact absurd hok (by simp)
      · rw [if_neg hA] at hok
        exact absurd hok (by simp)

theorem safeLoop_error_iff (c1 c2 : String)
    (prs : List (Option SimulationResult × Option SimulationResult)) :
    ∀ acc : List (String × List Nat), ∀ e : PyErr,
    (safeLoop c1 c2 prs acc = .error e ↔
      e = .assertionError ∧ ∃ p ∈ prs, TripleMismatch p) := by
  induction prs with
  | nil =>
    intro acc e
    simp [safeLoop]
  | cons p rest ih =>
    intro acc e
    obtain ⟨o1, o2⟩ := p
    rcases o1 with _ | r1 <;> rcases o2 with _ | r2
    · simp only [safeLoop]
      rw [ih, List.exists_mem_cons_iff]
      simp [TripleMismatch]
    · simp only [safeLoop]
      rw [ih, List.exists_mem_cons_iff]
      simp [TripleMismatch]
    · simp only [safeLoop]
      rw [ih, List.exists_mem_cons_iff]
      simp [TripleMismatch]
    · simp only [safeLoop]
      by_cases hA : r1.address = r2.address
      · rw [if_pos hA]
        by_cases hH : r1.hit = r2.hit
        · rw [if_pos hH]
          by_cases hI : r1.instruction = r2.instruction
          · rw [if_pos hI]
            rw [ih, List.exists_mem_cons_iff]
            constructor
            · rintro ⟨rfl, hrest⟩
              exact ⟨rfl, Or.inr hrest⟩
            · rintro ⟨rfl, ⟨s1, s2, he, hd⟩ | hrest⟩
              · injection he with he1 he2
                injection he1 with he1
                injection he2 with he2
                subst he1
                subst he2
                rcases hd with hd | hd | hd
                · exact absurd hA hd
                · exact absurd hH hd
                · exact absurd hI hd
              · exact ⟨rfl, hrest⟩
          · rw [if_neg hI]
            constructor
            · rintro he
              injection he with he
              subst he
              exact ⟨rfl, ⟨(some r1, some r2), List.mem_cons_self _ _,
                r1, r2, rfl, Or.inr (Or.inr hI)⟩⟩
            · rintro ⟨rfl, _⟩
              rfl
        · rw [if_neg hH]
          constructor
          · rintro he
            injection he with he
            subst he
            exact ⟨rfl, ⟨(some r1, some r2), List.mem_cons_self _ _,
              r1, r2, rfl, Or.inr (Or.inl hH)⟩⟩
          · rintro ⟨rfl, _⟩
            rfl
      · rw [if_neg hA]
        constructor
        · rintro he
          injection he with he
          subst he
          exact ⟨rfl, ⟨(some r1, some r2), List.mem_cons_self _ _,
            r1, r2, rfl, Or.inl hA⟩⟩
        · rintro ⟨rfl, _⟩
          rfl

theorem placeAll_ok (rs : List SimulationResult) :
    ∀ arr : List (Option SimulationResult),
    (∀ r ∈ rs, r.instruction < arr.length) →
    ∃ a, placeAll rs arr = .ok a ∧ a.length = arr.length := by
  induction rs with
  | nil => exact fun arr _ => ⟨arr, rfl, rfl⟩
  | cons r rest ih =>
    intro arr hin
    have hr : r.instruction < arr.length := hin r (List.mem_cons_self _ _)
    simp only [placeAll, place, if_pos hr]
    obtain ⟨a, ha, hl⟩ := ih (arr.set r.instruction (some r))
      (by
        intro x hx
        rw [List.length_set]
        exact hin x (List.mem_cons_of_mem _ hx))
    refine ⟨a, ha, ?_⟩
    rw [hl, List.length_set]

theorem placeAll_error (rs : List SimulationResult) :
    ∀ arr : List (Option SimulationResult),
    (∃ r ∈ rs, arr.length ≤ r.instruction) →
    placeAll rs arr = .error .indexError := by
  induction rs with
  | nil =>
    rintro arr ⟨r, hr, _⟩
    cases hr
  | cons r rest ih =>
    rintro arr ⟨r0, hr0, hbig0⟩
    rcases List.mem_cons.mp hr0 with rfl | hmem
    · have hno : ¬ r0.instruction < arr.length := by omega
      simp only [placeAll, place, if_neg hno]
    · by_cases hr : r.instruction < arr.length
      · simp only [placeAll, place, if_pos hr]
        refine ih _ ⟨r0, hmem, ?_⟩
        rw [List.length_set]
        exact hbig0
      · simp only [placeAll, place, if_neg hr]

theorem mem_alignedPairs_iff {rs1 rs2 : List SimulationResult}
    {a1 a2 : List (Option SimulationResult)}
    (e1 : placeAll rs1 (List.replicate alignCap none) = .ok a1)
    (e2 : placeAll rs2 (List.replicate alignCap none) = .ok a2)
    (r1 r2 : SimulationResult) :
    (r1, r2) ∈ alignedPairs rs1 rs2 ↔ (some r1, some r2) ∈ a1.zip a2 := by
  unfold alignedPairs
  rw [e1, e2]
  simp only [List.mem_filterMap]
  constructor
  · rintro ⟨⟨o1, o2⟩, hp, he⟩
    rcases o1 with _ | s1 <;> rcases o2 with _ | s2
    · exact Option.noConfusion he
    · exact Option.noConfusion he
    · exact Option.noConfusion he
    · injection he with he1
      injection he1 with ha hb
      subst ha
      subst hb
      exact hp
  · intro hp
    exact ⟨(some r1, some r2), hp, rfl⟩

theorem zip_replicate_none (n : Nat) :
    (List.replicate n (none : Option SimulationResult)).zip
      (List.replicate n (none : Option SimulationResult)) =
      List.replicate n (none, none) := by
  induction n with
  | zero => rfl
  | succ n ih => simp [List.replicate_succ, ih]

theorem safeLoop_skip_replicate (c1 c2 : String) (n : Nat)
    (acc : List (String × List Nat)) :
    safeLoop c1 c2 (List.replicate n ((none, none) :
      Option SimulationResult × Option SimulationResult)) acc = .ok acc := by
  induction n with
  | zero => rfl
  | succ n ih => simp [List.replicate_succ, safeLoop, ih]

/-- `check_safe_error_core` on two empty traces reports nothing. -/
theorem check_safe_error_core_nil (derive : List Nat → List Nat) :
    check_safe_error_core derive [] [] = .ok [] := by
  unfold check_safe_error_core
  simp only [placeAll]
  rw [zip_replicate_none, safeLoop_skip_replicate]

/-- An observation whose instruction index reaches the array capacity makes
the whole comparison fail with `IndexError` before any aligned pair forms. -/
theorem check_safe_error_core_overflow (derive : List Nat → List Nat)
    (rs1 rs2 : List SimulationResult)
    (hbig : ∃ r ∈ rs1 ++ rs2, 1000000 ≤ r.instruction) :
    check_safe_error_core derive rs1 rs2 = .error .indexError ∧
      alignedPairs rs1 rs2 = [] := by
  have hcap : (List.replicate alignCap
      (none : Option SimulationResult)).length = 1000000 := by
    rw [List.length_replicate]
    rfl
  by_cases h1 : ∃ r ∈ rs1, 1000000 ≤ r.instruction
  · obtain ⟨r0, hmem, hbig0⟩ := h1
    have e1 := placeAll_error rs1 (List.replicate alignCap none)
      ⟨r0, hmem, by rw [hcap]; exact hbig0⟩
    constructor
    · unfold check_safe_error_core
      rw [e1]
    · unfold alignedPairs
      rw [e1]
  · have hin1 : ∀ r ∈ rs1, r.instruction < 1000000 := by
      intro r hr
      by_contra hc
      exact h1 ⟨r, hr, by omega⟩
    obtain ⟨a1, e1, _⟩ := placeAll_ok rs1 (List.replicate alignCap none)
      (by
        intro r hr
        rw [hcap]
        exact hin1 r hr)
    obtain ⟨r0, hr0, hbig0⟩ := hbig
    rcases List.mem_append.mp hr0 with hmem | hmem
    · exact absurd ⟨r0, hmem, hbig0⟩ h1
    · have e2 := placeAll_error rs2 (List.replicate alignCap none)
        ⟨r0, hmem, by rw [hcap]; exact hbig0⟩
      constructor
      · unfold check_safe_error_core
        rw [e1, e2]
      · unfold alignedPairs
        rw [e1, e2]

theorem xorhit_zip_iff_aligned {rs1 rs2 : List SimulationResult}
    {a1 a2 : List (Option SimulationResult)}
    (e1 : placeAll rs1 (List.replicate alignCap none) = .ok a1)
    (e2 : placeAll rs2 (List.replicate alignCap none) = .ok a2)
    (c1 c2 : String) (a : String) (h : Nat) :
    (∃ p ∈ a1.zip a2, XorHit c1 c2 a h p) ↔
      ∃ q ∈ alignedPairs rs1 rs2, q.1.address = a ∧ q.1.hit = h ∧
        ((q.1.output == c1).xor (q.2.output == c2)) = true := by
  constructor
  · rintro ⟨p, hp, r1, r2, rfl, ha, hh, hx⟩
    exact ⟨(r1, r2), (mem_alignedPairs_iff e1 e2 r1 r2).mpr hp, ha, hh, hx⟩
  · rintro ⟨⟨r1, r2⟩, hq, ha, hh, hx⟩
    exact ⟨(some r1, some r2), (mem_alignedPairs_iff e1 e2 r1 r2).mp hq,
      r1, r2, rfl, ha, hh, hx⟩

theorem mismatch_zip_iff_aligned {rs1 rs2 : List SimulationResult}
    {a1 a2 : List (Option SimulationResult)}
    (e1 : placeAll rs1 (List.replicate alignCap none) = .ok a1)
    (e2 : placeAll rs2 (List.replicate alignCap none) = .ok a2) :
    (∃ p ∈ a1.zip a2, TripleMismatch p) ↔
      ∃ q ∈ alignedPairs rs1 rs2,
        (q.1.address ≠ q.2.address ∨ q.1.hit ≠ q.2.hit ∨
          q.1.instruction ≠ q.2.instruction) := by
  constructor
  · rintro ⟨p, hp, r1, r2, rfl, hd⟩
    exact ⟨(r1, r2), (mem_alignedPairs_iff e1 e2 r1 r2).mpr hp, hd⟩
  · rintro ⟨⟨r1, r2⟩, hq, hd⟩
    exact ⟨(some r1, some r2), (mem_alignedPairs_iff e1 e2 r1 r2).mp hq,
      r1, r2, rfl, hd⟩

end Sca25519

/-- C6: in the safe-error detector, when the comparison completes, an
(address, hit) pair is flagged exactly when some aligned observation pair
carries that address and hit and exactly one of the two runs' outputs equals
that run's correct public key (exclusive or); aligned pairs where both or
neither run is correct never contribute a flag. -/
theorem claim_C6_xor_flag (derive : List Nat → List Nat)
    (rs1 rs2 : List Sca25519.SimulationResult)
    (flags : List (String × List Nat)) (a : String) (h : Nat)
    (hok : Sca25519.check_safe_error_core derive rs1 rs2 = Except.ok flags) :
    Sca25519.flaggedIn flags a h ↔
      ∃ q ∈ Sca25519.alignedPairs rs1 rs2, q.1.address = a ∧ q.1.hit = h ∧
        ((q.1.output ==
            Sca25519.bytesHex (derive (List.replicate 32 0x93))).xor
          (q.2.output ==
            Sca25519.bytesHex (derive (List.replicate 32 0x6c)))) = true := by
  cases e1 : Sca25519.placeAll rs1
      (List.replicate Sca25519.alignCap none) with
  | error e =>
    unfold Sca25519.check_safe_error_core at hok
    rw [e1] at hok
    exact absurd hok (by simp)
  | ok a1 =>
    cases e2 : Sca25519.placeAll rs2
        (List.replicate Sca25519.alignCap none) with
    | error e =>
      unfold Sca25519.check_safe_error_core at hok
      rw [e1, e2] at hok
      exact absurd hok (by simp)
    | ok a2 =>
      unfold Sca25519.check_safe_error_core at hok
      rw [e1, e2] at hok
      have hiff := Sca25519.safeLoop_ok_flag_iff
        (Sca25519.bytesHex (derive (List.replicate 32 0x93)))
        (Sca25519.bytesHex (derive (List.replicate 32 0x6c)))
        (a1.zip a2) [] flags a h hok
      rw [hiff, Sca25519.xorhit_zip_iff_aligned e1 e2]
      have hempty : ¬ Sca25519.flaggedIn [] a h := by
        rintro ⟨hs, hnone, _⟩
        exact Option.noConfusion hnone
      constructor
      · rintro (hf | hx)
        · exact absurd hf hempty
        · exact hx
      · exact Or.inr

/-- C6 witness: two empty traces, whose comparison completes with an empty
report. -/
theorem claim_C6_xor_flag_witness :
    Sca25519.check_safe_error_core (fun _ => []) [] [] = Except.ok [] ∧
    (Sca25519.flaggedIn [] "0x1" 0 ↔
      ∃ q ∈ Sca25519.alignedPairs [] [], q.1.address = "0x1" ∧ q.1.hit = 0 ∧
        ((q.1.output == Sca25519.bytesHex ([] : List Nat)).xor
          (q.2.output == Sca25519.bytesHex ([] : List Nat))) = true) :=
  ⟨Sca25519.check_safe_error_core_nil _,
    claim_C6_xor_flag (fun _ => []) [] [] [] "0x1" 0
      (Sca25519.check_safe_error_core_nil _)⟩

/-- C7: the safe-error detector raises its fatal structural assertion
exactly when some aligned observation pair differs in address, hit count, or
instruction index; on traces whose aligned pairs have identical triples it
never fires, whatever the outputs (when an instruction index overflows the
arrays, the run fails with `IndexError` instead, and no aligned pairs
exist). -/
theorem claim_C7_assert_iff (derive : List Nat → List Nat)
    (rs1 rs2 : List Sca25519.SimulationResult) :
    Sca25519.check_safe_error_core derive rs1 rs2 =
        Except.error Sca25519.PyErr.assertionError ↔
      ∃ q ∈ Sca25519.alignedPairs rs1 rs2,
        (q.1.address ≠ q.2.address ∨ q.1.hit ≠ q.2.hit ∨
          q.1.instruction ≠ q.2.instruction) := by
  by_cases hin : ∀ r ∈ rs1 ++ rs2, r.instruction < 1000000
  · obtain ⟨a1, e1, _⟩ := Sca25519.placeAll_ok rs1
      (List.replicate Sca25519.alignCap none)
      (by
        intro r hr
        simp only [List.length_replicate]
        exact hin r (List.mem_append_left _ hr))
    obtain ⟨a2, e2, _⟩ := Sca25519.placeAll_ok rs2
      (List.replicate Sca25519.alignCap none)
      (by
        intro r hr
        simp only [List.length_replicate]
        exact hin r (List.mem_append_right _ hr))
    unfold Sca25519.check_safe_error_core
    rw [e1, e2]
    refine (Sca25519.safeLoop_error_iff _ _ (a1.zip a2) [] _).trans ?_
    constructor
    · rintro ⟨_, hx⟩
      exact (Sca25519.mismatch_zip_iff_aligned e1 e2).mp hx
    · intro hx
      exact ⟨rfl, (Sca25519.mismatch_zip_iff_aligned e1 e2).mpr hx⟩
  · push_neg at hin
    obtain ⟨r0, hmem, hle⟩ := hin
    obtain ⟨hcore, haligned⟩ := Sca25519.check_safe_error_core_overflow
      derive rs1 rs2 ⟨r0, hmem, by omega⟩
    rw [hcore, haligned]
    simp

/-- C9: the alignment arrays have fixed capacity 1,000,000 and the bound is
unchecked: a trace containing an observation with instruction index at least
1,000,000 makes `check_safe_error` fail with an out-of-range indexing error
instead of producing a report. -/
theorem claim_C9_capacity (derive : List Nat → List Nat)
    (rs1 rs2 : List Sca25519.SimulationResult)
    (hbig : ∃ r ∈ rs1 ++ rs2, 1000000 ≤ r.instruction) :
    Sca25519.check_safe_error_core derive rs1 rs2 =
      Except.error Sca25519.PyErr.indexError :=
  (Sca25519.check_safe_error_core_overflow derive rs1 rs2 hbig).1

/-- C9 witness: one observation at instruction index exactly 1,000,000. -/
theorem claim_C9_capacity_witness :
    (∃ r ∈ ([⟨"0x1", 0, 1000000, "ok", "aa"⟩] :
        List Sca25519.SimulationResult) ++ [], 1000000 ≤ r.instruction) ∧
    Sca25519.check_safe_error_core (fun _ => [])
        [⟨"0x1", 0, 1000000, "ok", "aa"⟩] [] =
      Except.error Sca25519.PyErr.indexError :=
  ⟨by decide,
    claim_C9_capacity (fun _ => []) [⟨"0x1", 0, 1000000, "ok", "aa"⟩] []
      (by decide)⟩

/-- C1 counterexample: two distinct faulted keys that derive the same
observed output are BOTH recorded by `check_key_shortening` — the later one
is not dropped.  With a derivation stub that maps every key to the all-zero
public key and one observation of that output, the first two yielded clamped
keys (distinct) both end up in `seen_effective_keys`; the code's `continue`
dedups per faulted key, not per output. -/
theorem claim_C1_counterexample :
    (List.replicate 31 0 ++ [67] : List Nat) ≠ List.replicate 30 0 ++ [10, 64] ∧
    ((List.replicate 31 0 ++ [67] : List Nat), (List.replicate 32 0 : List Nat)) ∈
      (Sca25519.generate_faulted_results (fun _ => List.replicate 32 0) []
        Sca25519.untouched_key).yields ∧
    ((List.replicate 30 0 ++ [10, 64] : List Nat),
        (List.replicate 32 0 : List Nat)) ∈
      (Sca25519.generate_faulted_results (fun _ => List.replicate 32 0) []
        Sca25519.untouched_key).yields ∧
    (Sca25519.lookupKV
      (Sca25519.buildIndex [(⟨"0x1", 0, 0, "ok", "0000000000000000000000000000000000000000000000000000000000000000"⟩ : Sca25519.SimulationResult)])
      (Sca25519.bytesHex (List.replicate 32 0))).isSome = true ∧
    (List.replicate 31 0 ++ [67] : List Nat) ∈
      (Sca25519.check_key_shortening_core (fun _ => List.replicate 32 0) []
        [(⟨"0x1", 0, 0, "ok", "0000000000000000000000000000000000000000000000000000000000000000"⟩ : Sca25519.SimulationResult)]).map
        Prod.fst ∧
    (List.replicate 30 0 ++ [10, 64] : List Nat) ∈
      (Sca25519.check_key_shortening_core (fun _ => List.replicate 32 0) []
        [(⟨"0x1", 0, 0, "ok", "0000000000000000000000000000000000000000000000000000000000000000"⟩ : Sca25519.SimulationResult)]).map
        Prod.fst := by
  refine ⟨by decide, by decide, by decide, by decide, ?_, ?_⟩ <;>
    exact Sca25519.shortLoop_mem _ _ _ _ (List.replicate 32 0)
      (by decide) (by decide)

/-- C1 (amended): the key-shortening dedup is per faulted key, not per
observed output: every faulted key yielded with an observed public key is
recorded (distinct faulted keys mapping to the same observed output are each
recorded under their own entry), and each faulted key is recorded at most
once — its first association wins. -/
theorem claim_C1_amended (derive : List Nat → List Nat)
    (cache0 : List (String × String)) (obs : List Sca25519.SimulationResult)
    (fk pk : List Nat)
    (hpair : (fk, pk) ∈
      (Sca25519.generate_faulted_results derive cache0
        Sca25519.untouched_key).yields)
    (hobs : (Sca25519.lookupKV (Sca25519.buildIndex obs)
      (Sca25519.bytesHex pk)).isSome = true) :
    fk ∈ (Sca25519.check_key_shortening_core derive cache0 obs).map Prod.fst ∧
    ((Sca25519.check_key_shortening_core derive cache0 obs).map
      Prod.fst).Nodup := by
  constructor
  · exact Sca25519.shortLoop_mem _ _ _ _ _ hpair hobs
  · exact Sca25519.shortLoop_nodup _ _ _ (by simp)

/-- C1 witness: the first yielded pair against one observation of the
all-zero output. -/
theorem claim_C1_amended_witness :
    (((List.replicate 31 0 ++ [67] : List Nat),
        (List.replicate 32 0 : List Nat)) ∈
      (Sca25519.generate_faulted_results (fun _ => List.replicate 32 0) []
        Sca25519.untouched_key).yields) ∧
    ((Sca25519.lookupKV
      (Sca25519.buildIndex [(⟨"0x1", 0, 0, "ok", "0000000000000000000000000000000000000000000000000000000000000000"⟩ : Sca25519.SimulationResult)])
      (Sca25519.bytesHex (List.replicate 32 0))).isSome = true) ∧
    ((List.replicate 31 0 ++ [67] : List Nat) ∈
      (Sca25519.check_key_shortening_core (fun _ => List.replicate 32 0) []
        [(⟨"0x1", 0, 0, "ok", "0000000000000000000000000000000000000000000000000000000000000000"⟩ : Sca25519.SimulationResult)]).map
        Prod.fst ∧
    ((Sca25519.check_key_shortening_core (fun _ => List.replicate 32 0) []
        [(⟨"0x1", 0, 0, "ok", "0000000000000000000000000000000000000000000000000000000000000000"⟩ : Sca25519.SimulationResult)]).map
        Prod.fst).Nodup) :=
  ⟨by decide, by decide,
    claim_C1_amended (fun _ => List.replicate 32 0) []
      [{ address := "0x1", hit := 0, instruction := 0, result := "ok",
         output := "0000000000000000000000000000000000000000000000000000000000000000" }]
      (List.replicate 31 0 ++ [67]) (List.replicate 32 0)
      (by decide) (by decide)⟩

/-- C2 counterexample: the claim asserts the family covers every pair with
`bitsFromStart + bitsFromEnd ∈ [1, 256]`, but the pair `(1, 255)` — whose
mask keeps all 256 bits, i.e. is the all-ones mask in both byte orders — is
emitted in neither encoding: the loop requires at least one faulted bit. -/
theorem claim_C2_counterexample :
    (1 ≤ 1 + 255 ∧ 1 + 255 ≤ 256) ∧
    Sca25519.toBytesBE 32 (Sca25519.specKeepMask 1 255) = List.replicate 32 255 ∧
    Sca25519.toBytesLE 32 (Sca25519.specKeepMask 1 255) = List.replicate 32 255 ∧
    List.replicate 32 255 ∉ Sca25519.fault_masks := by
  refine ⟨⟨by omega, by omega⟩, by decide, by decide, fun h => ?_⟩
  rcases List.mem_append.mp h with h | h
  · exact Sca25519.blockMasks_ne_allones _ h rfl
  · exact Sca25519.prefixSuffixMasks_ne_allones _ h rfl

/-- C2 (amended): the prefix+suffix retention family is exhaustive over the
pairs `(bitsFromStart, bitsFromEnd)` with `bitsFromStart + bitsFromEnd ∈
[1, 255]` (not `[1, 256]`): for each such pair the mask keeping the highest
`bitsFromStart` bits and the lowest `bitsFromEnd` bits with the middle
zeroed is emitted in both big- and little-endian byte encodings. -/
theorem claim_C2_amended (a b : Nat) (h1 : 1 ≤ a + b) (h2 : a + b ≤ 255) :
    Sca25519.toBytesBE 32 (Sca25519.specKeepMask a b) ∈ Sca25519.fault_masks ∧
    Sca25519.toBytesLE 32 (Sca25519.specKeepMask a b) ∈ Sca25519.fault_masks := by
  have hm : Sca25519.psMask a b = Sca25519.specKeepMask a b :=
    Sca25519.psMask_eq_specKeepMask a b (by omega)
  rw [← hm]
  have hmem : ∀ x ∈ [Sca25519.toBytesBE 32 (Sca25519.psMask a b),
      Sca25519.toBytesLE 32 (Sca25519.psMask a b)],
      x ∈ Sca25519.prefixSuffixMasks := by
    intro x hx
    simp only [Sca25519.prefixSuffixMasks, List.mem_flatMap, List.mem_range]
    exact ⟨a, by omega, b, by omega, by rw [if_neg (by omega)]; exact hx⟩
  constructor <;> exact List.mem_append_right _ (hmem _ (by simp))

/-- C2 witness: the pair `(3, 4)`. -/
theorem claim_C2_amended_witness :
    (1 ≤ 3 + 4 ∧ 3 + 4 ≤ 255) ∧
    (Sca25519.toBytesBE 32 (Sca25519.specKeepMask 3 4) ∈ Sca25519.fault_masks ∧
     Sca25519.toBytesLE 32 (Sca25519.specKeepMask 3 4) ∈ Sca25519.fault_masks) :=
  ⟨⟨by omega, by omega⟩, claim_C2_amended 3 4 (by omega) (by omega)⟩

/-- C3 counterexample: a missing directory does not yield an empty sequence
of observations — `os.listdir` raises `FileNotFoundError` before any file is
read. -/
theorem claim_C3_counterexample : Sca25519.parse_output none ≠ Except.ok [] :=
  fun h => nomatch h

/-- C3 (amended): an empty directory yields an empty sequence and no error,
but a missing directory raises `FileNotFoundError`. -/
theorem claim_C3_amended :
    Sca25519.parse_output none = Except.error Sca25519.PyErr.fileNotFound ∧
    Sca25519.parse_output (some []) = Except.ok [] :=
  ⟨rfl, rfl⟩

/-- C10: `parse_output` reads only the files whose names end with `.txt`;
the other files of the directory contribute no observations, whatever their
content: parsing a directory equals parsing its `.txt`-only restriction. -/
theorem claim_C10_only_txt (files : List (String × String)) :
    Sca25519.parse_output (some files) =
      Sca25519.parse_output
        (some (files.filter (fun f => f.1.endsWith ".txt"))) := by
  simp only [Sca25519.parse_output, List.filter_filter, Bool.and_self]

/-- C4: during a generation pass, a clamped key whose hex already appears in
the loaded cache mapping is never passed to the external derivation
primitive, the cached public key is yielded for it instead, and the whole
updated mapping is persisted in a single batch write after the pass. -/
theorem claim_C4_cache (derive : List Nat → List Nat)
    (cache0 : List (String × String)) (okey fk : List Nat) (v : String)
    (hmem : fk ∈ Sca25519.generate_faulted_keys okey)
    (hc : Sca25519.lookupKV cache0 (Sca25519.bytesHex (Sca25519.clamp fk)) =
      some v) :
    Sca25519.bytesHex (Sca25519.clamp fk) ∉
        (Sca25519.generate_faulted_results derive cache0 okey).calls ∧
      (Sca25519.clamp fk, Sca25519.hexToBytes v.data) ∈
        (Sca25519.generate_faulted_results derive cache0 okey).yields ∧
      (Sca25519.generate_faulted_results derive cache0 okey).writes =
        [(Sca25519.generate_faulted_results derive cache0 okey).cache] := by
  have h1 := Sca25519.genLoop_cached derive
    (Sca25519.generate_faulted_keys okey) cache0 _ _ hc
  have h2 := Sca25519.genLoop_yield_cached derive
    (Sca25519.generate_faulted_keys okey) cache0 fk v hmem hc
  exact ⟨h1.1, h2, rfl⟩

/-- C4 witness: the all-0xff reference key; its first faulted key keeps the
low byte, and the cache is seeded with that key's clamped hex. -/
theorem claim_C4_cache_witness :
    (List.replicate 31 0 ++ [255]) ∈
        Sca25519.generate_faulted_keys (List.replicate 32 255) ∧
      Sca25519.lookupKV
        [(Sca25519.bytesHex (Sca25519.clamp (List.replicate 31 0 ++ [255])),
          "00")]
        (Sca25519.bytesHex (Sca25519.clamp (List.replicate 31 0 ++ [255]))) =
        some "00" ∧
      (Sca25519.bytesHex (Sca25519.clamp (List.replicate 31 0 ++ [255])) ∉
        (Sca25519.generate_faulted_results (fun _ => List.replicate 32 0)
          [(Sca25519.bytesHex (Sca25519.clamp (List.replicate 31 0 ++ [255])),
            "00")] (List.replicate 32 255)).calls ∧
      (Sca25519.clamp (List.replicate 31 0 ++ [255]),
        Sca25519.hexToBytes ("00" : String).data) ∈
        (Sca25519.generate_faulted_results (fun _ => List.replicate 32 0)
          [(Sca25519.bytesHex (Sca25519.clamp (List.replicate 31 0 ++ [255])),
            "00")] (List.replicate 32 255)).yields ∧
      (Sca25519.generate_faulted_results (fun _ => List.replicate 32 0)
          [(Sca25519.bytesHex (Sca25519.clamp (List.replicate 31 0 ++ [255])),
            "00")] (List.replicate 32 255)).writes =
        [(Sca25519.generate_faulted_results (fun _ => List.replicate 32 0)
          [(Sca25519.bytesHex (Sca25519.clamp (List.replicate 31 0 ++ [255])),
            "00")] (List.replicate 32 255)).cache]) :=
  ⟨by decide, Sca25519.lookupKV_singleton _ _,
    claim_C4_cache (fun _ => List.replicate 32 0)
      [(Sca25519.bytesHex (Sca25519.clamp (List.replicate 31 0 ++ [255])),
        "00")]
      (List.replicate 32 255) (List.replicate 31 0 ++ [255]) "00"
      (by decide) (Sca25519.lookupKV_singleton _ _)⟩

/-- C8: every pair yielded by `generate_faulted_results` has a first
component that is a fixed point of `clamp`; read as a little-endian integer
it has bit 254 set, and is therefore nonzero. -/
theorem claim_C8_yields_clamped (derive : List Nat → List Nat)
    (cache0 : List (String × String)) (okey : List Nat)
    (p : List Nat × List Nat)
    (hp : p ∈ (Sca25519.generate_faulted_results derive cache0 okey).yields) :
    Sca25519.clamp p.1 = p.1 ∧
      Nat.testBit (Sca25519.fromBytesLE p.1) 254 = true ∧
      Sca25519.fromBytesLE p.1 ≠ 0 := by
  obtain ⟨fk, _, he⟩ := Sca25519.genLoop_yields_clamped derive
    (Sca25519.generate_faulted_keys okey) cache0 p hp
  rw [he]
  refine ⟨Sca25519.clamp_clamp fk, ?_, ?_⟩
  · rw [Sca25519.fromBytesLE_clamp]
    exact Sca25519.testBit_clampInt_254 _
  · rw [Sca25519.fromBytesLE_clamp]
    exact Sca25519.clampInt_ne_zero _

/-- C8 witness: the first yielded pair for the all-0xff reference key with
an empty cache and a constant derivation stub. -/
theorem claim_C8_yields_clamped_witness :
    (Sca25519.clamp (List.replicate 31 0 ++ [255]), List.replicate 32 0) ∈
        (Sca25519.generate_faulted_results (fun _ => List.replicate 32 0) []
          (List.replicate 32 255)).yields ∧
      (Sca25519.clamp
          (Sca25519.clamp (List.replicate 31 0 ++ [255]),
            List.replicate 32 0).1 =
        (Sca25519.clamp (List.replicate 31 0 ++ [255]),
          List.replicate 32 0).1 ∧
      Nat.testBit
        (Sca25519.fromBytesLE
          (Sca25519.clamp (List.replicate 31 0 ++ [255]),
            List.replicate 32 0).1) 254 = true ∧
      Sca25519.fromBytesLE
        (Sca25519.clamp (List.replicate 31 0 ++ [255]),
          List.replicate 32 0).1 ≠ 0) :=
  ⟨by decide,
    claim_C8_yields_clamped (fun _ => List.replicate 32 0) []
      (List.replicate 32 255)
      (Sca25519.clamp (List.replicate 31 0 ++ [255]), List.replicate 32 0)
      (by decide)⟩

/-- C5: the clamp transform is idempotent: for every 32-byte value `k`,
`clamp (clamp k) = clamp k`. -/
theorem claim_C5_clamp_idempotent (k : List Nat) (_h : Sca25519.ValidBytes32 k) :
    Sca25519.clamp (Sca25519.clamp k) = Sca25519.clamp k :=
  Sca25519.clamp_clamp k

/-- C5 witness: concrete 32-byte input. -/
theorem claim_C5_clamp_idempotent_witness :
    Sca25519.ValidBytes32 (List.replicate 32 255) ∧
      Sca25519.clamp (Sca25519.clamp (List.replicate 32 255)) =
        Sca25519.clamp (List.replicate 32 255) :=
  ⟨by decide, claim_C5_clamp_idempotent (List.replicate 32 255) (by decide)⟩
